import Mathlib

/-!
Verification of the object-storage core of `mygit` (files `mygit.py`,
`file_io.py`) against its natural-language specification.

Modelling conventions (shallow embedding of the Python source):
- Python `bytes` values are `List Nat` (each element a byte value).
- Python `str` values are `List Char` (Python strings are sequences of
  Unicode code points; Lean `Char` is a Unicode scalar value).
- The object database on disk (`.git/objects/<bucket>/<entry>`) is a finite
  association list from the pair (bucket directory name, entry file name)
  to the stored file contents.  Writing a file overwrites any existing file
  at the same path; `os.listdir` of the objects directory lists each bucket
  directory once; `os.listdir` of a bucket lists its entry files.
- zlib compression is a lossless bijective transport of the framed bytes
  (`zlib.decompress (zlib.compress x) = x`); since no specified behaviour
  depends on the compressed image itself, the DEFLATE codec is modelled as
  the identity on byte lists.
- `hashlib.sha1(...).hexdigest()` is modelled by a full executable
  implementation of SHA-1 (padding, message schedule, 80-round compression)
  over byte lists, with 32-bit words as `Nat` reduced `% 2^32`.
- Python exceptions become an explicit error type carried in `Except`.
-/

set_option maxRecDepth 100000

/-- Python `bytes`: a list of byte values. -/
abbrev PyBytes := List Nat

/-- Python `str`: a list of Unicode characters. -/
abbrev PyStr := List Char

/-- Models Python `str.lower()` restricted to the ASCII range (the only
range exercised by hex object names). -/
def pyLower (s : PyStr) : PyStr := s.map Char.toLower

/-- Models Python `bytes.find(t)`: index of the first occurrence of byte
`t`, or `-1` if absent. -/
def bfind (bs : PyBytes) (t : Nat) : Int :=
  match bs with
  | [] => -1
  | b :: rest =>
    if b = t then 0
    else
      let r := bfind rest t
      if r < 0 then -1 else r + 1

/-- Models Python `bytes.find(t, start)`. -/
def bfindFrom (bs : PyBytes) (t : Nat) (start : Nat) : Int :=
  let r := bfind (bs.drop start) t
  if r < 0 then -1 else r + start

/-- Normalize a Python slice endpoint for a sequence of length `L`:
negative indices count from the end, then the result is clamped to
`[0, L]`. -/
def pyNorm (L : Nat) (i : Int) : Nat :=
  (max 0 (min (if i < 0 then i + L else i) (L : Int))).toNat

/-- Models the Python slice `bs[a:b]` (step 1). -/
def pySlice (bs : PyBytes) (a b : Int) : PyBytes :=
  (bs.drop (pyNorm bs.length a)).take (pyNorm bs.length b - pyNorm bs.length a)

/-- Models Python `bs.split(sep, 1)` for a single-byte separator: at most
one split, at the first occurrence of `sep`. -/
def pySplit1 (bs : PyBytes) (sep : Nat) : List PyBytes :=
  let j := bfind bs sep
  if j < 0 then [bs] else [bs.take j.toNat, bs.drop (j.toNat + 1)]

/-- UTF-8 encoding of one Unicode scalar value (the standard 1- to 4-byte
scheme used by CPython's `str.encode("utf-8")`). -/
def utf8EncodeChar (c : Char) : PyBytes :=
  let v := c.toNat
  if v < 128 then [v]
  else if v < 2048 then [192 + v / 64, 128 + v % 64]
  else if v < 65536 then [224 + v / 4096, 128 + v / 64 % 64, 128 + v % 64]
  else [240 + v / 262144, 128 + v / 4096 % 64, 128 + v / 64 % 64, 128 + v % 64]

/-- Models CPython `str.encode("utf-8")`. -/
def utf8Encode (s : PyStr) : PyBytes := s.flatMap utf8EncodeChar

/-- One step of strict UTF-8 decoding, fuelled by the remaining byte count
(each decoded character consumes at least one byte, so fuel `bs.length`
suffices).  Rejects continuation-byte errors, overlong forms, surrogates
and out-of-range values, as CPython's strict `bytes.decode("utf-8")` does. -/
def utf8DecodeAux : Nat → PyBytes → Option PyStr
  | _, [] => some []
  | 0, _ :: _ => none
  | fuel + 1, b :: rest =>
    if b < 128 then
      (utf8DecodeAux fuel rest).map (fun cs => Char.ofNat b :: cs)
    else if b < 192 then none
    else if b < 224 then
      match rest with
      | c1 :: rest1 =>
        if 128 ≤ c1 ∧ c1 < 192 then
          let v := (b - 192) * 64 + (c1 - 128)
          if 128 ≤ v then
            (utf8DecodeAux fuel rest1).map (fun cs => Char.ofNat v :: cs)
          else none
        else none
      | [] => none
    else if b < 240 then
      match rest with
      | c1 :: c2 :: rest2 =>
        if (128 ≤ c1 ∧ c1 < 192) ∧ (128 ≤ c2 ∧ c2 < 192) then
          let v := (b - 224) * 4096 + (c1 - 128) * 64 + (c2 - 128)
          if 2048 ≤ v ∧ ¬(55296 ≤ v ∧ v ≤ 57343) then
            (utf8DecodeAux fuel rest2).map (fun cs => Char.ofNat v :: cs)
          else none
        else none
      | _ => none
    else if b < 248 then
      match rest with
      | c1 :: c2 :: c3 :: rest3 =>
        if (128 ≤ c1 ∧ c1 < 192) ∧ (128 ≤ c2 ∧ c2 < 192) ∧ (128 ≤ c3 ∧ c3 < 192) then
          let v := (b - 240) * 262144 + (c1 - 128) * 4096 + (c2 - 128) * 64 + (c3 - 128)
          if 65536 ≤ v ∧ v ≤ 1114111 then
            (utf8DecodeAux fuel rest3).map (fun cs => Char.ofNat v :: cs)
          else none
        else none
      | _ => none
    else none

/-- Models CPython strict `bytes.decode("utf-8")`: `some` of the decoded
string, or `none` where CPython raises `UnicodeDecodeError`. -/
def utf8Decode (bs : PyBytes) : Option PyStr := utf8DecodeAux bs.length bs

/-- Models Python `bytes.hex()`: two lowercase hex characters per byte. -/
def bytesHex (bs : PyBytes) : PyStr :=
  bs.flatMap (fun b => [Nat.digitChar (b / 16 % 16), Nat.digitChar (b % 16)])

/-- Reduce to a 32-bit word. -/
def w32 (x : Nat) : Nat := x % 4294967296

/-- 32-bit left rotation (operands assumed `< 2^32`). -/
def rotl32 (x s : Nat) : Nat := w32 (x <<< s) ||| (x >>> (32 - s))

/-- SHA-1 message padding: append `0x80`, zeros to 56 mod 64, then the
bit length as 8 big-endian bytes. -/
def sha1Pad (msg : PyBytes) : PyBytes :=
  let L := msg.length
  let k := (55 + 64 - L % 64) % 64
  let ml := L * 8
  msg ++ [128] ++ List.replicate k 0 ++
    [ml >>> 56 % 256, ml >>> 48 % 256, ml >>> 40 % 256, ml >>> 32 % 256,
     ml >>> 24 % 256, ml >>> 16 % 256, ml >>> 8 % 256, ml % 256]

/-- Group bytes into big-endian 32-bit words. -/
def beWords : PyBytes → List Nat
  | a :: b :: c :: d :: rest => (a * 16777216 + b * 65536 + c * 256 + d) :: beWords rest
  | _ => []

/-- Extend the (reversed) message schedule: prepend
`rotl1 (W[t-3] xor W[t-8] xor W[t-14] xor W[t-16])` `n` times. -/
def sha1ExtendRev : Nat → List Nat → List Nat
  | 0, acc => acc
  | n + 1, acc =>
    let x := acc.getD 2 0 ^^^ acc.getD 7 0 ^^^ acc.getD 13 0 ^^^ acc.getD 15 0
    sha1ExtendRev n (rotl32 x 1 :: acc)

/-- The SHA-1 round function `f` for round `i`. -/
def sha1F (i b c d : Nat) : Nat :=
  if i < 20 then (b &&& c) ||| ((4294967295 ^^^ b) &&& d)
  else if i < 40 then b ^^^ c ^^^ d
  else if i < 60 then (b &&& c) ||| (b &&& d) ||| (c &&& d)
  else b ^^^ c ^^^ d

/-- The SHA-1 round constant for round `i`. -/
def sha1K (i : Nat) : Nat :=
  if i < 20 then 1518500249
  else if i < 40 then 1859775393
  else if i < 60 then 2400959708
  else 3395469782

/-- One SHA-1 round on the state `(a, b, c, d, e)` with indexed schedule
word `(i, w)`. -/
def sha1Step (st : Nat × Nat × Nat × Nat × Nat) (iw : Nat × Nat) :
    Nat × Nat × Nat × Nat × Nat :=
  let t := w32 (rotl32 st.1 5 + sha1F iw.1 st.2.1 st.2.2.1 st.2.2.2.1 + st.2.2.2.2 +
    sha1K iw.1 + iw.2)
  (t, st.1, rotl32 st.2.1 30, st.2.2.1, st.2.2.2.1)

/-- Process one 64-byte chunk, updating the running hash values. -/
def sha1UpdateChunk (h : Nat × Nat × Nat × Nat × Nat) (chunk : PyBytes) :
    Nat × Nat × Nat × Nat × Nat :=
  let ws := (sha1ExtendRev 64 (beWords chunk).reverse).reverse
  let r := ws.enum.foldl sha1Step h
  (w32 (h.1 + r.1), w32 (h.2.1 + r.2.1), w32 (h.2.2.1 + r.2.2.1),
   w32 (h.2.2.2.1 + r.2.2.2.1), w32 (h.2.2.2.2 + r.2.2.2.2))

/-- Iterate over all 64-byte chunks (fuel bounds the chunk count). -/
def sha1Loop : Nat → (Nat × Nat × Nat × Nat × Nat) → PyBytes →
    Nat × Nat × Nat × Nat × Nat
  | 0, h, _ => h
  | fuel + 1, h, bytes =>
    if bytes.isEmpty then h
    else sha1Loop fuel (sha1UpdateChunk h (bytes.take 64)) (bytes.drop 64)

/-- A 32-bit word as 4 big-endian bytes. -/
def beBytes4 (x : Nat) : PyBytes := [x >>> 24 % 256, x >>> 16 % 256, x >>> 8 % 256, x % 256]

/-- The 20-byte SHA-1 digest of a byte sequence. -/
def sha1Digest (msg : PyBytes) : PyBytes :=
  let padded := sha1Pad msg
  let h := sha1Loop (padded.length + 1) (1732584193, 4023233417, 2562383102, 271733878, 3285377520) padded
  beBytes4 h.1 ++ beBytes4 h.2.1 ++ beBytes4 h.2.2.1 ++ beBytes4 h.2.2.2.1 ++ beBytes4 h.2.2.2.2

/-- Models `hashlib.sha1(msg).hexdigest()`: 40 lowercase hex characters. -/
def sha1Hex (msg : PyBytes) : PyStr := bytesHex (sha1Digest msg)

/-- A path inside `.git/objects`: (bucket directory name, entry file name). -/
abbrev ObjPath := PyStr × PyStr

/-- The object database: a finite map from object paths to file contents,
as an association list (first entry with a given path wins on lookup; a
write removes any previous file at the same path, modelling overwrite). -/
abbrev Store := List (ObjPath × PyBytes)

/-- Writing the file at path `p` (with `make_dirs`): overwrite semantics. -/
def storeInsert (p : ObjPath) (content : PyBytes) (st : Store) : Store :=
  (p, content) :: st.filter (fun e => decide (e.1 ≠ p))

/-- Reading the file at path `p`, `none` when the file does not exist. -/
def storeLookup (st : Store) (p : ObjPath) : Option PyBytes :=
  match st.find? (fun e => decide (e.1 = p)) with
  | some e => some e.2
  | none => none

/-- Models `os.listdir(objects_dir)`: each bucket directory listed once. -/
def listBuckets (st : Store) : List PyStr := (st.map (fun e => e.1.1)).dedup

/-- Models `os.listdir` of one bucket directory: its entry file names. -/
def listFilesIn (st : Store) (b : PyStr) : List PyStr :=
  (st.filter (fun e => decide (e.1.1 = b))).map (fun e => e.1.2)

/-- Models `os.path.isdir` for a bucket directory (bucket directories are
created exactly by writes of objects whose name starts with the bucket). -/
def bucketExists (st : Store) (b : PyStr) : Bool :=
  st.any (fun e => decide (e.1.1 = b))

/-- Models `os.path.exists` for an object file path. -/
def pathExists (st : Store) (p : ObjPath) : Bool :=
  st.any (fun e => decide (e.1 = p))

/-- Models the identity transport pair `zlib.compress`/`zlib.decompress`
(DEFLATE is a lossless bijection on the byte sequences stored here; no
specified behaviour depends on the compressed image itself). -/
def zlibCompress (bs : PyBytes) : PyBytes := bs

/-- Inverse of `zlibCompress`; see its docstring. -/
def zlibDecompress (bs : PyBytes) : PyBytes := bs

/-- The Python exceptions raised by the source, with their message text. -/
inductive PyExc where
  | fileNotFoundError (msg : String)
  | valueError (msg : String)
  | unicodeDecodeError
  | assertionError (msg : String)
deriving DecidableEq

deriving instance DecidableEq for Except

/-- The `data: Union[bytes, str]` argument of `hash_object`. -/
inductive PyData where
  | str (s : String)
  | bytes (b : PyBytes)

/-- `hash_object(data, obj_type)`: normalize `data` to bytes (UTF-8 for a
`str`), frame it as `b"<type> <size>\x00" + data`, hash the framed bytes
with SHA-1, compress, and write to `objects/<sha[:2]>/<sha[2:]>`.
Returns the hex object name and the updated store. -/
def hash_object (data : PyData) (objType : PyStr) (st : Store) : PyStr × Store :=
  let dataBytes := match data with
    | .str s => utf8Encode s.data
    | .bytes b => b
  let header := utf8Encode (objType ++ [' '] ++ (Nat.repr dataBytes.length).data ++ ['\x00'])
  let full := header ++ dataBytes
  let sha := sha1Hex full
  let compressed := zlibCompress full
  (sha, storeInsert (sha.take 2, sha.drop 2) compressed st)

/-- The `ValueError` message raised by `find_object` on an ambiguous
prefix: carries the query and the number of matches. -/
def ambiguousMsg (name : PyStr) (n : Nat) : String :=
  "Ambiguous prefix: " ++ String.mk name ++ " matches " ++ Nat.repr n ++ " objects"

/-- The brute-force scan for prefixes shorter than 2 characters: every
bucket directory and every file in it, keeping names that start with the
query. -/
def bruteScan (st : Store) (name : PyStr) : List PyStr :=
  (listBuckets st).flatMap (fun d =>
    (listFilesIn st d).filterMap (fun f =>
      if name.isPrefixOf (d ++ f) then some (d ++ f) else none))

/-- The optimized scan for prefixes of length ≥ 2: only the bucket named
by the first two characters is listed, matching on the remainder. -/
def bucketScan (st : Store) (name : PyStr) : List PyStr :=
  (listFilesIn st (name.take 2)).filterMap (fun f =>
    if (name.drop 2).isPrefixOf f then some (name.take 2 ++ f) else none)

/-- The tail of `find_object`: no match raises `FileNotFoundError`, more
than one raises `ValueError`, otherwise `matches[0]` is returned. -/
def resolveMatches (name : PyStr) (ms : List PyStr) : Except PyExc PyStr :=
  if ms.isEmpty then .error (.fileNotFoundError (String.mk name))
  else if 1 < ms.length then .error (.valueError (ambiguousMsg name ms.length))
  else .ok (ms.headD [])

/-- `find_object(name)`: resolve a full object name or an unambiguous
prefix to the full name.  The query is lowercased; a 40-character query is
a direct path check; shorter queries scan for prefix matches (brute force
below 2 characters, single-bucket otherwise, the bucket's absence being a
`FileNotFoundError`). -/
def find_object (name0 : PyStr) (st : Store) : Except PyExc PyStr :=
  let name := pyLower name0
  if name.length = 40 then
    if pathExists st (name.take 2, name.drop 2) then .ok name
    else .error (.fileNotFoundError (String.mk name))
  else if name.length < 2 then
    resolveMatches name (bruteScan st name)
  else
    if bucketExists st (name.take 2) then
      resolveMatches name (bucketScan st name)
    else .error (.fileNotFoundError (String.mk name))

/-- The header/payload split of `read_object` (its last lines, applied to
the decompressed bytes): find the first NUL, everything before it is the
header, everything after it the payload; unpack `header.split(b" ", 1)`
into exactly two parts and UTF-8-decode the first. -/
def parse_object (decompressed : PyBytes) : Except PyExc (PyStr × PyBytes) :=
  let headerEnd := bfind decompressed 0
  let header := pySlice decompressed 0 headerEnd
  let data := pySlice decompressed (headerEnd + 1) decompressed.length
  match pySplit1 header 32 with
  | [t, _] =>
    match utf8Decode t with
    | some ty => .ok (ty, data)
    | none => .error .unicodeDecodeError
  | _ => .error (.valueError "not enough values to unpack (expected 2, got 1)")

/-- `read_object(sha)`: resolve `sha` via `find_object`, read the file at
`objects/<full[:2]>/<full[2:]>`, decompress, and split header from
payload. -/
def read_object (sha : PyStr) (st : Store) : Except PyExc (PyStr × PyBytes) :=
  match find_object sha st with
  | .error e => .error e
  | .ok full =>
    match storeLookup st (full.take 2, full.drop 2) with
    | none => .error (.fileNotFoundError (String.mk full))
    | some raw => parse_object (zlibDecompress raw)

/-- Models CPython `int(x, 8)` on the digit strings occurring in tree
payloads (no sign, whitespace or `0o` forms, which do not occur there):
octal digits only, empty or non-octal input raising `ValueError`. -/
def pyIntOctal (bs : PyBytes) : Except PyExc Nat :=
  if bs ≠ [] ∧ ∀ b ∈ bs, 48 ≤ b ∧ b ≤ 55 then
    .ok (bs.foldl (fun acc b => acc * 8 + (b - 48)) 0)
  else .error (.valueError "invalid literal for int() with base 8")

/-- The loop body of `read_tree`, with explicit cursor `i` and an
accumulator for the yielded entries.  The fuel bounds the iteration count;
it can only run out in the one configuration (`data.find(b"\x00", j+1)`
returning `-1` repeatedly) where the CPython generator never terminates. -/
def read_tree_aux (data : PyBytes) : Nat → Nat → List (Nat × PyStr × PyStr) →
    Except PyExc (List (Nat × PyStr × PyStr))
  | 0, _, acc => .ok acc.reverse
  | fuel + 1, i, acc =>
    if i < data.length then
      let j := bfindFrom data 32 i
      if j < 0 then .ok acc.reverse
      else
        let modeStr := pySlice data (i : Int) j
        let k := bfindFrom data 0 (j.toNat + 1)
        let nameBytes := pySlice data (j + 1) k
        match utf8Decode nameBytes with
        | none => .error .unicodeDecodeError
        | some name =>
          let shaRaw := pySlice data (k + 1) (k + 21)
          let shaHex := bytesHex shaRaw
          match pyIntOctal modeStr with
          | .error e => .error e
          | .ok modeInt => read_tree_aux data fuel (k + 21).toNat ((modeInt, name, shaHex) :: acc)
    else .ok acc.reverse

/-- `read_tree(data)`: parse a raw tree payload into its entry sequence
`(mode, name, sha_hex)`.  The CPython generator is consumed strictly: the
result is either the full entry list or the first error raised while
iterating. -/
def read_tree (data : PyBytes) : Except PyExc (List (Nat × PyStr × PyStr)) :=
  read_tree_aux data (data.length + 1) 0 []

/-- Models `stat.S_ISDIR`: the file-type bits equal the directory bit. -/
def sIsDir (m : Nat) : Bool := m &&& 61440 == 16384

/-- `"{:06o}".format(mode_int)`: octal, zero-padded to width 6. -/
def padOct6 (m : Nat) : PyStr :=
  let ds := Nat.toDigits 8 m
  List.replicate (6 - ds.length) '0' ++ ds

/-- One output line of `cat_file -p` for a tree entry. -/
def treeLine (e : Nat × PyStr × PyStr) : PyStr :=
  padOct6 e.1 ++ [' '] ++ (if sIsDir e.1 then "tree".data else "blob".data) ++
    [' '] ++ e.2.2 ++ ['\t'] ++ e.2.1 ++ ['\n']

/-- The `mode` strings accepted by `cat_file`. -/
def recognizedModes : List PyStr :=
  ["commit".data, "tree".data, "blob".data,
   "-s".data, "--size".data, "size".data,
   "-t".data, "--type".data, "type".data,
   "-p".data, "--pretty".data, "pretty".data]

/-- `cat_file(mode, sha)`: read the object and render it according to
`mode`.  The bytes written to stdout (via `sys.stdout.buffer.write` or
`print`) are returned; exceptions are returned as errors. -/
def cat_file (mode : PyStr) (sha : PyStr) (st : Store) : Except PyExc PyBytes :=
  match read_object sha st with
  | .error e => .error e
  | .ok (objType, data) =>
    if mode ∈ ["commit".data, "tree".data, "blob".data] then
      if objType ≠ mode then
        .error (.valueError (String.mk ("expected object type ".data ++ mode ++
          ", got ".data ++ objType)))
      else .ok data
    else if mode ∈ ["-s".data, "--size".data, "size".data] then
      .ok (utf8Encode ((Nat.repr data.length).data ++ ['\n']))
    else if mode ∈ ["-t".data, "--type".data, "type".data] then
      .ok (utf8Encode (objType ++ ['\n']))
    else if mode ∈ ["-p".data, "--pretty".data, "pretty".data] then
      if objType = "commit".data ∨ objType = "blob".data then .ok data
      else if objType = "tree".data then
        match read_tree data with
        | .error e => .error e
        | .ok entries => .ok (utf8Encode (entries.map treeLine).flatten)
      else .error (.assertionError (String.mk ("unhandled object type '".data ++ objType ++ "'".data)))
    else .error (.valueError ("unexpected mode '" ++ String.mk mode ++ "'"))

/-- The full object names present in the store (bucket ++ entry). -/
def objectIds (st : Store) : List PyStr := st.map (fun e => e.1.1 ++ e.1.2)

/-- The stored object names matched by a query, read case-insensitively
(the resolver lowercases the query; stored names are lowercase hex). -/
def matchingIds (st : Store) (q : PyStr) : List PyStr :=
  (objectIds st).filter (fun i => (pyLower q).isPrefixOf i)

/-- The lowercase hexadecimal alphabet of object names. -/
def hexChars : List Char := "0123456789abcdef".data

/-- Well-formedness of an object store as produced by writes: every path
is a 2-character bucket and 38-character entry over lowercase hex, and no
path occurs twice. -/
def WFStore (st : Store) : Prop :=
  (∀ e ∈ st, e.1.1.length = 2 ∧ e.1.2.length = 38 ∧
    (∀ c ∈ e.1.1, c ∈ hexChars) ∧ (∀ c ∈ e.1.2, c ∈ hexChars)) ∧
  (st.map Prod.fst).Nodup

instance wfStoreDecidable (st : Store) : Decidable (WFStore st) := by
  unfold WFStore
  infer_instance

/-- Entry name of a first demonstration object (38 hex characters). -/
def demoId1 : PyStr := List.replicate 38 '0'

/-- Entry name of a second demonstration object sharing only the bucket
with the first. -/
def demoId2 : PyStr := '1' :: List.replicate 37 '0'

/-- A small well-formed store holding two framed blobs in bucket "aa",
used to instantiate the theorems that carry store hypotheses. -/
def demoStore : Store :=
  [(("aa".data, demoId1), [98, 108, 111, 98, 32, 49, 0, 120]),
   (("aa".data, demoId2), [98, 108, 111, 98, 32, 49, 0, 121])]

/-! ### Basic facts about the byte-level helpers -/

theorem bfind_of_not_mem {bs : PyBytes} {t : Nat} (h : t ∉ bs) : bfind bs t = -1 := by
  induction bs with
  | nil => rfl
  | cons b rest ih =>
    simp only [List.mem_cons, not_or] at h
    have hb : ¬ b = t := fun hb => h.1 hb.symm
    simp [bfind, hb, ih h.2]

theorem bfind_append {l₁ l₂ : PyBytes} {t : Nat} (h : t ∉ l₁) :
    bfind (l₁ ++ t :: l₂) t = l₁.length := by
  induction l₁ with
  | nil => simp [bfind]
  | cons a l₁ ih =>
    simp only [List.mem_cons, not_or] at h
    have ha : ¬ a = t := fun hb => h.1 hb.symm
    have hr := ih h.2
    have hnn : ¬ (bfind (l₁ ++ t :: l₂) t < 0) := by rw [hr]; omega
    simp only [List.cons_append, bfind, if_neg ha, List.length_cons, List.append_eq]
    rw [if_neg hnn, hr]
    omega

theorem bfind_nonneg_of_mem {bs : PyBytes} {t : Nat} (h : t ∈ bs) : 0 ≤ bfind bs t := by
  induction bs with
  | nil => simp at h
  | cons b rest ih =>
    by_cases hb : b = t
    · simp [bfind, hb]
    · simp only [List.mem_cons] at h
      have hm : t ∈ rest := h.resolve_left (fun hh => hb hh.symm)
      have := ih hm
      simp only [bfind, if_neg hb]
      omega

theorem pyNorm_natCast (L n : Nat) : pyNorm L (n : Int) = min n L := by
  simp only [pyNorm]
  omega

theorem pySlice_zero_natCast (bs : PyBytes) (n : Nat) : pySlice bs 0 (n : Int) = bs.take n := by
  have h0 : pyNorm bs.length 0 = 0 := by simpa using pyNorm_natCast bs.length 0
  simp only [pySlice, h0, pyNorm_natCast, List.drop_zero, Nat.sub_zero]
  rcases le_total n bs.length with h | h
  · rw [min_eq_left h]
  · rw [min_eq_right h, List.take_of_length_le h, List.take_of_length_le le_rfl]

theorem pySlice_natCast_length (bs : PyBytes) (n : Nat) :
    pySlice bs (n : Int) bs.length = bs.drop n := by
  have hL : pyNorm bs.length (bs.length : Int) = bs.length := by
    simpa using pyNorm_natCast bs.length bs.length
  simp only [pySlice, hL, pyNorm_natCast]
  rcases le_total n bs.length with h | h
  · rw [min_eq_left h, List.take_of_length_le (by simp)]
  · rw [min_eq_right h, List.take_of_length_le (by simp), List.drop_of_length_le h,
      List.drop_of_length_le le_rfl]

theorem pySplit1_append {l₁ l₂ : PyBytes} {sep : Nat} (h : sep ∉ l₁) :
    pySplit1 (l₁ ++ sep :: l₂) sep = [l₁, l₂] := by
  have hf : bfind (l₁ ++ sep :: l₂) sep = l₁.length := bfind_append h
  have hnn : ¬ ((l₁.length : Int) < 0) := by omega
  have h1 : (l₁ ++ sep :: l₂).take l₁.length = l₁ := List.take_left l₁ (sep :: l₂)
  have h2 : (l₁ ++ sep :: l₂).drop (l₁.length + 1) = l₂ := by
    have he : l₁ ++ sep :: l₂ = (l₁ ++ [sep]) ++ l₂ := by simp
    rw [he, show l₁.length + 1 = (l₁ ++ [sep]).length by simp, List.drop_left]
  simp only [pySplit1, hf, if_neg hnn, Int.toNat_natCast, h1, h2]

theorem pySplit1_of_not_mem {bs : PyBytes} {sep : Nat} (h : sep ∉ bs) :
    pySplit1 bs sep = [bs] := by
  simp [pySplit1, bfind_of_not_mem h]

/-! ### UTF-8 and decimal-digit facts -/

theorem utf8Encode_append (a b : PyStr) :
    utf8Encode (a ++ b) = utf8Encode a ++ utf8Encode b := by
  simp [utf8Encode]

theorem utf8EncodeChar_ascii {c : Char} (h : c.toNat < 128) : utf8EncodeChar c = [c.toNat] := by
  simp [utf8EncodeChar, h]

theorem utf8Encode_ascii {s : PyStr} (h : ∀ c ∈ s, c.toNat < 128) :
    utf8Encode s = s.map Char.toNat := by
  induction s with
  | nil => rfl
  | cons c s ih =>
    simp only [utf8Encode, List.flatMap_cons] at *
    rw [utf8EncodeChar_ascii (h c (by simp)), ih (fun c hc => h c (by simp [hc]))]
    rfl

theorem digitChar_digit {m : Nat} (h : m < 10) :
    48 ≤ (Nat.digitChar m).toNat ∧ (Nat.digitChar m).toNat ≤ 57 := by
  interval_cases m <;> decide

theorem toDigitsCore_digit (fuel : Nat) :
    ∀ (n : Nat) (ds : List Char), (∀ c ∈ ds, 48 ≤ c.toNat ∧ c.toNat ≤ 57) →
      ∀ c ∈ Nat.toDigitsCore 10 fuel n ds, 48 ≤ c.toNat ∧ c.toNat ≤ 57 := by
  induction fuel with
  | zero => intro n ds hds; simpa [Nat.toDigitsCore] using hds
  | succ fuel ih =>
    intro n ds hds
    have hd : 48 ≤ (Nat.digitChar (n % 10)).toNat ∧ (Nat.digitChar (n % 10)).toNat ≤ 57 :=
      digitChar_digit (Nat.mod_lt _ (by norm_num))
    simp only [Nat.toDigitsCore]
    by_cases hz : n / 10 = 0
    · simp only [if_pos hz]
      intro c hc
      rcases List.mem_cons.mp hc with rfl | hc
      · exact hd
      · exact hds c hc
    · simp only [if_neg hz]
      exact ih (n / 10) _ (by
        intro c hc
        rcases List.mem_cons.mp hc with rfl | hc
        · exact hd
        · exact hds c hc)

theorem repr_digit (n : Nat) :
    ∀ c ∈ (Nat.repr n).data, 48 ≤ c.toNat ∧ c.toNat ≤ 57 := by
  have : (Nat.repr n).data = Nat.toDigits 10 n := rfl
  rw [this]
  exact toDigitsCore_digit (n + 1) n [] (by simp)

/-! ### The hex rendering of SHA-1 digests -/

theorem bytesHex_length (bs : PyBytes) : (bytesHex bs).length = 2 * bs.length := by
  induction bs with
  | nil => rfl
  | cons b bs ih =>
    simp only [bytesHex, List.flatMap_cons, List.length_append, List.length_cons,
      List.length_nil, List.length_cons] at *
    omega

theorem sha1Digest_length (m : PyBytes) : (sha1Digest m).length = 20 := by
  simp [sha1Digest, beBytes4]

theorem sha1Hex_length (m : PyBytes) : (sha1Hex m).length = 40 := by
  simp [sha1Hex, bytesHex_length, sha1Digest_length]

theorem digitChar_mem_hexChars {m : Nat} (h : m < 16) : Nat.digitChar m ∈ hexChars := by
  interval_cases m <;> decide

theorem bytesHex_mem_hexChars (bs : PyBytes) : ∀ c ∈ bytesHex bs, c ∈ hexChars := by
  induction bs with
  | nil => simp [bytesHex]
  | cons b bs ih =>
    intro c hc
    simp only [bytesHex, List.flatMap_cons, List.mem_append, List.mem_cons,
      List.not_mem_nil, or_false] at hc
    rcases hc with (rfl | rfl) | hc
    · exact digitChar_mem_hexChars (Nat.mod_lt _ (by norm_num))
    · exact digitChar_mem_hexChars (Nat.mod_lt _ (by norm_num))
    · exact ih c hc

theorem sha1Hex_mem_hexChars (m : PyBytes) : ∀ c ∈ sha1Hex m, c ∈ hexChars :=
  bytesHex_mem_hexChars _

theorem hexChars_toLower : ∀ c ∈ hexChars, c.toLower = c := by decide

theorem pyLower_of_hex {s : PyStr} (h : ∀ c ∈ s, c ∈ hexChars) : pyLower s = s := by
  simp only [pyLower]
  rw [List.map_congr_left (fun c hc => hexChars_toLower c (h c hc))]
  exact List.map_id' s

theorem pyLower_sha1Hex (m : PyBytes) : pyLower (sha1Hex m) = sha1Hex m :=
  pyLower_of_hex (sha1Hex_mem_hexChars m)

/-! ### Store operations -/

theorem storeLookup_insert (p : ObjPath) (v : PyBytes) (st : Store) :
    storeLookup (storeInsert p v st) p = some v := by
  unfold storeLookup storeInsert
  rw [List.find?_cons_of_pos _ (by simp)]

theorem pathExists_insert (p : ObjPath) (v : PyBytes) (st : Store) :
    pathExists (storeInsert p v st) p = true := by
  simp [pathExists, storeInsert]

theorem storeInsert_idem (p : ObjPath) (v : PyBytes) (st : Store) :
    storeInsert p v (storeInsert p v st) = storeInsert p v st := by
  simp only [storeInsert]
  rw [List.filter_cons_of_neg (by simp)]
  congr 1
  rw [List.filter_filter]
  exact List.filter_congr (fun a _ => by rw [Bool.and_self])

/-! ### The framed encoding built by `hash_object` and its parse -/

theorem header_bytes (objType : PyStr) (n : Nat) (hascii : ∀ c ∈ objType, c.toNat < 128) :
    utf8Encode (objType ++ [' '] ++ (Nat.repr n).data ++ ['\x00'])
      = objType.map Char.toNat ++ 32 :: ((Nat.repr n).data.map Char.toNat ++ [0]) := by
  rw [utf8Encode_append, utf8Encode_append, utf8Encode_append, utf8Encode_ascii hascii,
    utf8Encode_ascii (s := (Nat.repr n).data) (fun c hc => by have := repr_digit n c hc; omega),
    show utf8Encode [' '] = [32] from rfl, show utf8Encode ['\x00'] = [0] from rfl]
  simp

theorem parse_object_framed (kb ds payload : PyBytes) (kind : PyStr)
    (hnz : (0 : Nat) ∉ kb) (h32 : (32 : Nat) ∉ kb)
    (hd : ∀ b ∈ ds, 48 ≤ b ∧ b ≤ 57)
    (hdec : utf8Decode kb = some kind) :
    parse_object (kb ++ 32 :: (ds ++ 0 :: payload)) = .ok (kind, payload) := by
  have hform : kb ++ 32 :: (ds ++ 0 :: payload) = (kb ++ 32 :: ds) ++ 0 :: payload := by simp
  have hnull : (0 : Nat) ∉ kb ++ 32 :: ds := by
    intro hmem
    rcases List.mem_append.mp hmem with h | h
    · exact hnz h
    · rcases List.mem_cons.mp h with h | h
      · omega
      · have := hd 0 h; omega
  rw [hform]
  have hfind : bfind ((kb ++ 32 :: ds) ++ 0 :: payload) 0 = (kb ++ 32 :: ds).length :=
    bfind_append hnull
  have hheader : pySlice ((kb ++ 32 :: ds) ++ 0 :: payload) 0 ((kb ++ 32 :: ds).length : Int)
      = kb ++ 32 :: ds := by
    rw [pySlice_zero_natCast]; exact List.take_left _ _
  have hdata : pySlice ((kb ++ 32 :: ds) ++ 0 :: payload) (((kb ++ 32 :: ds).length : Int) + 1)
      ((kb ++ 32 :: ds) ++ 0 :: payload).length = payload := by
    rw [show ((kb ++ 32 :: ds).length : Int) + 1 = (((kb ++ 32 :: ds).length + 1 : Nat) : Int)
      by push_cast; ring, pySlice_natCast_length]
    rw [show (kb ++ 32 :: ds) ++ 0 :: payload = ((kb ++ 32 :: ds) ++ [0]) ++ payload by simp,
      show (kb ++ 32 :: ds).length + 1 = ((kb ++ 32 :: ds) ++ [0]).length by
        simp only [List.length_append, List.length_cons, List.length_nil],
      List.drop_left]
  have hsplit : pySplit1 (kb ++ 32 :: ds) 32 = [kb, ds] := pySplit1_append h32
  simp only [parse_object, hfind, hheader, hdata, hsplit, hdec]

theorem hash_object_eq (payload : PyBytes) (kind : PyStr) (st : Store)
    (hascii : ∀ c ∈ kind, c.toNat < 128) :
    hash_object (.bytes payload) kind st
      = (sha1Hex (kind.map Char.toNat ++ 32 :: ((Nat.repr payload.length).data.map Char.toNat ++ 0 :: payload)),
         storeInsert
           ((sha1Hex (kind.map Char.toNat ++ 32 :: ((Nat.repr payload.length).data.map Char.toNat ++ 0 :: payload))).take 2,
            (sha1Hex (kind.map Char.toNat ++ 32 :: ((Nat.repr payload.length).data.map Char.toNat ++ 0 :: payload))).drop 2)
           (zlibCompress (kind.map Char.toNat ++ 32 :: ((Nat.repr payload.length).data.map Char.toNat ++ 0 :: payload)))
           st) := by
  have hh := header_bytes kind payload.length hascii
  have he : (kind.map Char.toNat ++ 32 :: ((Nat.repr payload.length).data.map Char.toNat ++ [0])) ++ payload
      = kind.map Char.toNat ++ 32 :: ((Nat.repr payload.length).data.map Char.toNat ++ 0 :: payload) := by
    simp
  simp only [hash_object, hh, he]

theorem read_write_aux (kind : PyStr) (payload : PyBytes) (st : Store)
    (hascii : ∀ c ∈ kind, c.toNat < 128)
    (hnz : (0 : Nat) ∉ kind.map Char.toNat)
    (h32 : (32 : Nat) ∉ kind.map Char.toNat)
    (hdec : utf8Decode (kind.map Char.toNat) = some kind) :
    read_object (hash_object (.bytes payload) kind st).1
      (hash_object (.bytes payload) kind st).2 = .ok (kind, payload) := by
  rw [hash_object_eq payload kind st hascii]
  have hfind : find_object
      (sha1Hex (kind.map Char.toNat ++ 32 :: ((Nat.repr payload.length).data.map Char.toNat ++ 0 :: payload)))
      (storeInsert
        ((sha1Hex (kind.map Char.toNat ++ 32 :: ((Nat.repr payload.length).data.map Char.toNat ++ 0 :: payload))).take 2,
         (sha1Hex (kind.map Char.toNat ++ 32 :: ((Nat.repr payload.length).data.map Char.toNat ++ 0 :: payload))).drop 2)
        (zlibCompress (kind.map Char.toNat ++ 32 :: ((Nat.repr payload.length).data.map Char.toNat ++ 0 :: payload)))
        st)
      = .ok (sha1Hex (kind.map Char.toNat ++ 32 :: ((Nat.repr payload.length).data.map Char.toNat ++ 0 :: payload))) := by
    simp [find_object, pyLower_sha1Hex, sha1Hex_length, pathExists_insert]
  simp only [read_object, hfind, storeLookup_insert]
  show parse_object (kind.map Char.toNat ++ 32 :: ((Nat.repr payload.length).data.map Char.toNat ++ 0 :: payload))
      = .ok (kind, payload)
  exact parse_object_framed _ _ _ _ hnz h32
    (fun b hb => by rcases List.mem_map.mp hb with ⟨c, hc, rfl⟩; exact repr_digit _ c hc) hdec

/-- C1: for every kind in {blob, tree, commit} and every byte payload,
writing the object and reading back the returned identifier yields exactly
the original pair, the payload byte-for-byte without the header framing. -/
theorem write_read_round_trip (kind : PyStr) (payload : PyBytes) (st : Store)
    (hk : kind = "blob".data ∨ kind = "tree".data ∨ kind = "commit".data) :
    read_object (hash_object (.bytes payload) kind st).1
      (hash_object (.bytes payload) kind st).2 = .ok (kind, payload) := by
  rcases hk with rfl | rfl | rfl <;>
    exact read_write_aux _ _ _ (by decide) (by decide) (by decide) (by decide)

/-- Witness for C1 at kind "blob", payload [97, 98, 99], empty store. -/
theorem write_read_round_trip_witness :
    read_object (hash_object (.bytes [97, 98, 99]) "blob".data []).1
      (hash_object (.bytes [97, 98, 99]) "blob".data []).2 = .ok ("blob".data, [97, 98, 99]) :=
  write_read_round_trip "blob".data [97, 98, 99] [] (Or.inl rfl)

/-- C6: the framed bytes are exactly the ASCII header `"<kind> <decimal
payload length>"` followed by one NUL byte and the payload; the identifier
is the SHA-1 digest of those framed bytes rendered as 40 lowercase hex
characters; the object is stored in the bucket named by the first 2 hex
characters under the entry named by the remaining 38. -/
theorem hash_object_encoding_spec (kind : PyStr) (payload : PyBytes) (st : Store)
    (hk : kind = "blob".data ∨ kind = "tree".data ∨ kind = "commit".data) :
    (hash_object (.bytes payload) kind st).1
        = sha1Hex (kind.map Char.toNat ++ 32 :: ((Nat.repr payload.length).data.map Char.toNat ++ 0 :: payload)) ∧
    (hash_object (.bytes payload) kind st).1.length = 40 ∧
    (∀ c ∈ (hash_object (.bytes payload) kind st).1, c ∈ hexChars) ∧
    ((hash_object (.bytes payload) kind st).1.take 2).length = 2 ∧
    ((hash_object (.bytes payload) kind st).1.drop 2).length = 38 ∧
    (hash_object (.bytes payload) kind st).2
        = storeInsert ((hash_object (.bytes payload) kind st).1.take 2,
            (hash_object (.bytes payload) kind st).1.drop 2)
            (zlibCompress (kind.map Char.toNat ++ 32 :: ((Nat.repr payload.length).data.map Char.toNat ++ 0 :: payload)))
            st := by
  have hascii : ∀ c ∈ kind, c.toNat < 128 := by rcases hk with rfl | rfl | rfl <;> decide
  rw [hash_object_eq payload kind st hascii]
  refine ⟨rfl, sha1Hex_length _, sha1Hex_mem_hexChars _, ?_, ?_, rfl⟩
  · simp [sha1Hex_length]
  · simp [sha1Hex_length]

/-- Witness for C6 at kind "blob", payload [104, 105], empty store. -/
theorem hash_object_encoding_spec_witness :
    (hash_object (.bytes [104, 105]) "blob".data []).1
      = sha1Hex [98, 108, 111, 98, 32, 50, 0, 104, 105] :=
  ((hash_object_encoding_spec "blob".data [104, 105] [] (Or.inl rfl)).1).trans
    (congrArg sha1Hex (by decide))

/-- C7: the identifier returned by a write is a function of the (kind,
payload) content alone: any two invocations on identical content, from any
prior store states, return the same identifier and target the same storage
location, and re-writing the same content leaves the store unchanged. -/
theorem hash_object_content_addressed (d : PyData) (t : PyStr) (s₁ s₂ : Store) :
    (hash_object d t s₁).1 = (hash_object d t s₂).1 ∧
    ((hash_object d t s₁).1.take 2, (hash_object d t s₁).1.drop 2)
      = ((hash_object d t s₂).1.take 2, (hash_object d t s₂).1.drop 2) ∧
    (hash_object d t (hash_object d t s₁).2).2 = (hash_object d t s₁).2 := by
  refine ⟨rfl, rfl, ?_⟩
  simp only [hash_object]
  exact storeInsert_idem _ _ _

/-- C10: a `str` payload is first encoded as UTF-8: writing a string is
the same operation as writing its UTF-8 byte encoding. -/
theorem hash_object_str_encodes_utf8 (s : String) (t : PyStr) (st : Store) :
    hash_object (.str s) t st = hash_object (.bytes (utf8Encode s.data)) t st := rfl

/-- Validation of the SHA-1 embedding against the standard test vector for
the empty message. -/
theorem sha1Hex_empty_vector :
    sha1Hex [] = "da39a3ee5e6b4b0d3255bfef95601890afd80709".data := by decide

/-- Validation of the SHA-1 embedding against the standard test vector for
the message "abc". -/
theorem sha1Hex_abc_vector :
    sha1Hex [97, 98, 99] = "a9993e364706816aba3e25717850c26c9cd0d89d".data := by decide

/-- C2 (counterexample): the decompressed byte sequence `b"blob 3"`
contains no null byte, yet the decode step does not fail: it returns kind
"blob" with the whole input as payload, where the claim demands a
MalformedObject error. -/
theorem parse_object_no_null_counterexample :
    (0 : Nat) ∉ [98, 108, 111, 98, 32, 51] ∧
    parse_object [98, 108, 111, 98, 32, 51] = .ok ("blob".data, [98, 108, 111, 98, 32, 51]) := by
  decide

/-- C2 (amended): the decode step fails exactly when the header segment —
the bytes before the first null byte, or all bytes but the last when no
null byte exists — contains no space byte, or when its first
space-separated token is not valid UTF-8.  A missing null byte with a
space present is silently mis-parsed rather than rejected, and the length
token is never validated. -/
theorem parse_object_failure_characterization (bs : PyBytes) :
    (∃ r, parse_object bs = .ok r) ↔
      (32 ∈ pySlice bs 0 (bfind bs 0) ∧
        (utf8Decode ((pySlice bs 0 (bfind bs 0)).take
          (bfind (pySlice bs 0 (bfind bs 0)) 32).toNat)).isSome = true) := by
  by_cases hsp : (32 : Nat) ∈ pySlice bs 0 (bfind bs 0)
  · have hnn : ¬ (bfind (pySlice bs 0 (bfind bs 0)) 32 < 0) := by
      have := bfind_nonneg_of_mem hsp; omega
    have hsplit : pySplit1 (pySlice bs 0 (bfind bs 0)) 32
        = [(pySlice bs 0 (bfind bs 0)).take (bfind (pySlice bs 0 (bfind bs 0)) 32).toNat,
           (pySlice bs 0 (bfind bs 0)).drop ((bfind (pySlice bs 0 (bfind bs 0)) 32).toNat + 1)] := by
      simp [pySplit1, if_neg hnn]
    simp only [parse_object, hsplit]
    cases hu : utf8Decode ((pySlice bs 0 (bfind bs 0)).take
        (bfind (pySlice bs 0 (bfind bs 0)) 32).toNat) with
    | some ty => simp [hu, hsp]
    | none => simp [hu, hsp]
  · have hsplit : pySplit1 (pySlice bs 0 (bfind bs 0)) 32 = [pySlice bs 0 (bfind bs 0)] :=
      pySplit1_of_not_mem hsp
    simp only [parse_object, hsplit]
    simp [hsp]

/-- C3 (counterexample): the tree payload `b"100644"` has no space
separator; the decoder silently yields no entries instead of failing with
a MalformedObject error. -/
theorem read_tree_missing_space_counterexample :
    (32 : Nat) ∉ [49, 48, 48, 54, 52, 52] ∧
    read_tree [49, 48, 48, 54, 52, 52] = .ok [] := by decide

set_option maxHeartbeats 1000000 in
/-- C3 (amended): on a tree payload containing no space byte the decoder
stops silently, yielding no entries and no error: a missing separator is
silent truncation, not a MalformedObject failure. -/
theorem read_tree_no_space_silent (data : PyBytes) (h : (32 : Nat) ∉ data) :
    read_tree data = .ok [] := by
  have hfind : bfindFrom data 32 0 = -1 := by
    simp [bfindFrom, bfind_of_not_mem h]
  show read_tree_aux data (data.length + 1) 0 [] = .ok []
  rw [read_tree_aux]
  by_cases hl : 0 < data.length
  · simp only [if_pos hl, hfind]
    simp
  · simp only [if_neg hl]
    rfl

/-- Witness for the amended C3 at the one-byte payload [0]. -/
theorem read_tree_no_space_silent_witness : read_tree [0] = .ok [] :=
  read_tree_no_space_silent [0] (by decide)

/-- C8: for a readable object, an exact-kind request fails with the
type-mismatch ValueError exactly when the stored kind differs from the
requested kind and otherwise emits the raw payload verbatim; an
unrecognized mode is rejected with the "unexpected mode" ValueError. -/
theorem cat_file_exact_kind_and_invalid_mode (mode sha : PyStr) (st : Store)
    (t : PyStr) (d : PyBytes) (hread : read_object sha st = .ok (t, d)) :
    (mode ∈ ["commit".data, "tree".data, "blob".data] →
      cat_file mode sha st =
        if t = mode then .ok d
        else .error (.valueError
          (String.mk ("expected object type ".data ++ mode ++ ", got ".data ++ t)))) ∧
    (mode ∉ recognizedModes →
      cat_file mode sha st = .error (.valueError ("unexpected mode '" ++ String.mk mode ++ "'"))) := by
  constructor
  · intro hm
    simp only [cat_file, hread, if_pos hm]
    by_cases ht : t = mode
    · simp [ht]
    · simp [ht]
  · intro hm
    have hni : ∀ (l : List PyStr), (∀ x ∈ l, x ∈ recognizedModes) → mode ∉ l :=
      fun l hl hc => hm (hl mode hc)
    simp only [cat_file, hread]
    rw [if_neg (hni _ (by decide)), if_neg (hni _ (by decide)),
      if_neg (hni _ (by decide)), if_neg (hni _ (by decide))]

/-- Witness for C8: a stored blob read back with exact kind "blob" and
with an unrecognized mode. -/
theorem cat_file_exact_kind_and_invalid_mode_witness :
    cat_file "blob".data ("aa".data ++ demoId1) demoStore = .ok [120] ∧
    cat_file "frob".data ("aa".data ++ demoId1) demoStore
      = .error (.valueError "unexpected mode 'frob'") := by
  constructor
  · exact ((cat_file_exact_kind_and_invalid_mode "blob".data ("aa".data ++ demoId1) demoStore
      "blob".data [120] (by decide)).1 (by decide)).trans (by decide)
  · exact ((cat_file_exact_kind_and_invalid_mode "frob".data ("aa".data ++ demoId1) demoStore
      "blob".data [120] (by decide)).2 (by decide)).trans (by decide)

/-! ### The resolver scan as a permutation of the matching identifiers -/

theorem flatMap_const_nil {α K : Type} (ks : List K) :
    ks.flatMap (fun _ => ([] : List α)) = [] := by
  induction ks with
  | nil => rfl
  | cons d ks ih => simp [List.flatMap_cons, ih]

theorem flatMap_append_perm {α K : Type} (ks : List K) (f g : K → List α) :
    (ks.flatMap (fun d => f d ++ g d)).Perm (ks.flatMap f ++ ks.flatMap g) := by
  induction ks with
  | nil => simp
  | cons d ks ih =>
    simp only [List.flatMap_cons]
    have h1 : ((f d ++ g d) ++ ks.flatMap fun x => f x ++ g x).Perm
        ((f d ++ g d) ++ (ks.flatMap f ++ ks.flatMap g)) := ih.append_left _
    have h2 : ((f d ++ g d) ++ (ks.flatMap f ++ ks.flatMap g)).Perm
        ((f d ++ ks.flatMap f) ++ (g d ++ ks.flatMap g)) := by
      rw [List.append_assoc (f d) (g d), List.append_assoc (f d) (ks.flatMap f)]
      refine List.Perm.append_left (f d) ?_
      rw [← List.append_assoc (g d), ← List.append_assoc (ks.flatMap f)]
      exact List.perm_append_comm.append_right _
    exact h1.trans h2

theorem flatMap_select_not_mem {α K : Type} [DecidableEq K] (x : α) (k : K) (ks : List K)
    (hk : k ∉ ks) : ks.flatMap (fun d => if k = d then [x] else []) = [] := by
  induction ks with
  | nil => rfl
  | cons d ks ih =>
    simp only [List.mem_cons, not_or] at hk
    simp [List.flatMap_cons, if_neg hk.1, ih hk.2]

theorem flatMap_select {α K : Type} [DecidableEq K] (x : α) (k : K) (ks : List K)
    (hnd : ks.Nodup) (hk : k ∈ ks) :
    ks.flatMap (fun d => if k = d then [x] else []) = [x] := by
  induction ks with
  | nil => simp at hk
  | cons d ks ih =>
    rcases List.nodup_cons.mp hnd with ⟨hd, hnd2⟩
    by_cases he : k = d
    · subst he
      simp [List.flatMap_cons, flatMap_select_not_mem x k ks hd]
    · have hk2 : k ∈ ks := (List.mem_cons.mp hk).resolve_left he
      simp [List.flatMap_cons, if_neg he, ih hnd2 hk2]

theorem group_flatMap_perm {α K : Type} [DecidableEq K] (key : α → K) (st : List α)
    (ks : List K) (hnd : ks.Nodup) (hcov : ∀ e ∈ st, key e ∈ ks) :
    (ks.flatMap (fun d => st.filter (fun e => decide (key e = d)))).Perm st := by
  induction st with
  | nil =>
    simp only [List.filter_nil]
    rw [flatMap_const_nil]
  | cons e rest ih =>
    have hstep : ∀ d, (e :: rest).filter (fun x => decide (key x = d))
        = (if key e = d then [e] else []) ++ rest.filter (fun x => decide (key x = d)) := by
      intro d
      by_cases he : key e = d
      · simp [List.filter_cons, he]
      · simp [List.filter_cons, he]
    simp only [hstep]
    refine (flatMap_append_perm ks _ _).trans ?_
    rw [flatMap_select e (key e) ks hnd (hcov e (by simp))]
    exact (ih (fun x hx => hcov x (by simp [hx]))).cons e

theorem filterMap_guard {α β : Type} (g : α → β) (p : β → Bool) (l : List α) :
    (l.filterMap (fun x => if p (g x) then some (g x) else none)) = (l.map g).filter p := by
  induction l with
  | nil => rfl
  | cons a l ih =>
    by_cases hp : p (g a)
    · simp [List.filterMap_cons, hp, List.filter_cons, ih]
    · simp [List.filterMap_cons, hp, List.filter_cons, ih]

theorem filter_flatMap {α β : Type} (ks : List α) (f : α → List β) (p : β → Bool) :
    (ks.flatMap f).filter p = ks.flatMap (fun d => (f d).filter p) := by
  induction ks with
  | nil => rfl
  | cons d ks ih => simp [List.flatMap_cons, List.filter_append, ih]

theorem bruteScan_perm (st : Store) (name : PyStr) :
    (bruteScan st name).Perm ((objectIds st).filter (fun i => name.isPrefixOf i)) := by
  have hinner : ∀ d : PyStr, (listFilesIn st d).filterMap
        (fun f => if name.isPrefixOf (d ++ f) then some (d ++ f) else none)
      = ((st.filter (fun e => decide (e.1.1 = d))).map (fun e => e.1.1 ++ e.1.2)).filter
          (fun i => name.isPrefixOf i) := by
    intro d
    rw [filterMap_guard (fun f => d ++ f) (fun i => name.isPrefixOf i)]
    unfold listFilesIn
    rw [List.map_map]
    congr 1
    refine List.map_congr_left ?_
    intro e he
    have hd : e.1.1 = d := of_decide_eq_true (List.mem_filter.mp he).2
    simp [Function.comp, hd]
  unfold bruteScan
  simp only [hinner]
  rw [← filter_flatMap]
  refine List.Perm.filter _ ?_
  rw [show (fun e : ObjPath × PyBytes => e.1.1 ++ e.1.2)
      = (fun e : ObjPath × PyBytes => e.1.1 ++ e.1.2) from rfl]
  rw [← List.map_flatMap]
  exact List.Perm.map _ (group_flatMap_perm (fun e => e.1.1) st (listBuckets st)
    (List.nodup_dedup _) (fun e he => List.mem_dedup.mpr (List.mem_map.mpr ⟨e, he, rfl⟩)))

/-! ### The bucket-restricted scan equals the global matching set -/

theorem prefix_split_iff (name b f : PyStr) (hb : b.length = 2) (hn : 2 ≤ name.length) :
    name.isPrefixOf (b ++ f) = true ↔ (name.take 2 = b ∧ (name.drop 2).isPrefixOf f = true) := by
  rw [List.isPrefixOf_iff_prefix, List.isPrefixOf_iff_prefix]
  constructor
  · intro hpre
    rcases hpre with ⟨t, ht⟩
    rw [← List.take_append_drop 2 name, List.append_assoc] at ht
    have hlen2 : (name.take 2).length = b.length := by
      rw [List.length_take, hb]; omega
    rcases List.append_inj ht hlen2 with ⟨h1, h2⟩
    exact ⟨h1, ⟨t, h2⟩⟩
  · rintro ⟨h1, t, ht⟩
    refine ⟨t, ?_⟩
    rw [← List.take_append_drop 2 name, List.append_assoc, ht, h1]

theorem bucketScan_eq (st : Store) (name : PyStr)
    (hb2 : ∀ e ∈ st, e.1.1.length = 2) (hn : 2 ≤ name.length) :
    bucketScan st name = (objectIds st).filter (fun i => name.isPrefixOf i) := by
  induction st with
  | nil => rfl
  | cons e rest ih =>
    have ihr := ih (fun x hx => hb2 x (List.mem_cons_of_mem e hx))
    have hlen := hb2 e (List.mem_cons_self e rest)
    simp only [bucketScan, listFilesIn, objectIds, List.map_cons] at ihr ⊢
    rw [List.filterMap_map] at ihr
    simp only [List.isPrefixOf_iff_prefix] at ihr
    by_cases hd : e.1.1 = name.take 2
    · by_cases hp : (name.drop 2).isPrefixOf e.1.2 = true
      · have hp1 : List.drop 2 name <+: e.1.2 := List.isPrefixOf_iff_prefix.mp hp
        have hp2 : name.isPrefixOf (e.1.1 ++ e.1.2) = true :=
          (prefix_split_iff name e.1.1 e.1.2 hlen hn).mpr ⟨hd.symm, hp⟩
        have hp3 : name <+: List.take 2 name ++ e.1.2 := by
          rw [← hd]
          exact List.isPrefixOf_iff_prefix.mp hp2
        simp [List.filter_cons, List.filterMap_cons, hd, hp1, hp3, ihr]
      · have hp1 : ¬ (List.drop 2 name <+: e.1.2) :=
          fun hc => hp (List.isPrefixOf_iff_prefix.mpr hc)
        have hp2 : ¬ name.isPrefixOf (e.1.1 ++ e.1.2) = true := by
          intro hc
          exact hp ((prefix_split_iff name e.1.1 e.1.2 hlen hn).mp hc).2
        have hp3 : ¬ (name <+: List.take 2 name ++ e.1.2) := by
          rw [← hd]
          intro hc
          exact hp2 (List.isPrefixOf_iff_prefix.mpr hc)
        simp [List.filter_cons, List.filterMap_cons, hd, hp1, hp3, ihr]
    · have hp3 : ¬ (name <+: e.1.1 ++ e.1.2) := by
        intro hc
        exact hd ((prefix_split_iff name e.1.1 e.1.2 hlen hn).mp
          (List.isPrefixOf_iff_prefix.mpr hc)).1.symm
      simp [List.filter_cons, hd, hp3, ihr]

theorem bucketExists_false_filter (st : Store) (b : PyStr)
    (hbe : bucketExists st b = false) :
    st.filter (fun e => decide (e.1.1 = b)) = [] := by
  rw [List.filter_eq_nil_iff]
  exact List.any_eq_false.mp hbe

theorem bucketScan_nil_of_no_bucket (st : Store) (name : PyStr)
    (hbe : bucketExists st (name.take 2) = false) : bucketScan st name = [] := by
  unfold bucketScan listFilesIn
  rw [bucketExists_false_filter st (name.take 2) hbe]
  rfl

/-! ### Resolution of full 40-character identifiers -/

theorem objectIds_length (st : Store) (hwf : WFStore st) :
    ∀ i ∈ objectIds st, i.length = 40 := by
  intro i hi
  rcases List.mem_map.mp hi with ⟨e, he, rfl⟩
  have h := hwf.1 e he
  simp [List.length_append, h.1, h.2.1]

theorem objectIds_nodup (st : Store) (hwf : WFStore st) : (objectIds st).Nodup := by
  have hrw : objectIds st = (st.map Prod.fst).map (fun k => k.1 ++ k.2) := by
    rw [List.map_map]; rfl
  rw [hrw]
  refine List.Nodup.map_on ?_ hwf.2
  intro x hx y hy hxy
  rcases List.mem_map.mp hx with ⟨e, he, rfl⟩
  rcases List.mem_map.mp hy with ⟨e2, he2, rfl⟩
  have h1 := hwf.1 e he
  have h2 := hwf.1 e2 he2
  rcases List.append_inj hxy (by rw [h1.1, h2.1]) with ⟨ha, hb⟩
  exact Prod.ext ha hb

theorem pathExists_iff_mem_ids (st : Store) (q : PyStr) (hwf : WFStore st) :
    pathExists st (q.take 2, q.drop 2) = true ↔ q ∈ objectIds st := by
  unfold pathExists
  rw [List.any_eq_true]
  constructor
  · rintro ⟨e, he, hp⟩
    have hp2 : e.1 = (q.take 2, q.drop 2) := of_decide_eq_true hp
    refine List.mem_map.mpr ⟨e, he, ?_⟩
    rw [hp2]
    exact List.take_append_drop 2 q
  · intro hq
    rcases List.mem_map.mp hq with ⟨e, he, heq⟩
    refine ⟨e, he, decide_eq_true ?_⟩
    have h1 := hwf.1 e he
    have ht : q.take 2 = e.1.1 := by rw [← heq, List.take_left' h1.1]
    have hd : q.drop 2 = e.1.2 := by rw [← heq, List.drop_left' h1.1]
    rw [Prod.ext_iff]
    exact ⟨ht.symm, hd.symm⟩

theorem matchingIds_eq_lower (st : Store) (q : PyStr) (hwf : WFStore st)
    (h40 : (pyLower q).length = 40) :
    ∀ u ∈ matchingIds st q, u = pyLower q := by
  intro u hu
  rcases List.mem_filter.mp hu with ⟨hmem, hpre⟩
  have hlen := objectIds_length st hwf u hmem
  have hp : (pyLower q) <+: u := List.isPrefixOf_iff_prefix.mp hpre
  exact (List.IsPrefix.eq_of_length hp (by omega)).symm

theorem matchingIds_nodup (st : Store) (q : PyStr) (hwf : WFStore st) :
    (matchingIds st q).Nodup :=
  (objectIds_nodup st hwf).filter _

theorem matchingIds_forty_cases (st : Store) (q : PyStr) (hwf : WFStore st)
    (h40 : (pyLower q).length = 40) :
    matchingIds st q = [] ∨ matchingIds st q = [pyLower q] := by
  cases hm : matchingIds st q with
  | nil => exact Or.inl rfl
  | cons a tl =>
    have ha : a = pyLower q := matchingIds_eq_lower st q hwf h40 a (by rw [hm]; simp)
    cases tl with
    | nil => exact Or.inr (by rw [ha])
    | cons b tl2 =>
      have hb : b = pyLower q := matchingIds_eq_lower st q hwf h40 b (by rw [hm]; simp)
      have hnd := matchingIds_nodup st q hwf
      rw [hm] at hnd
      rcases List.nodup_cons.mp hnd with ⟨hna, _⟩
      exact absurd (by rw [ha, ← hb]; exact List.mem_cons_self b tl2) hna

theorem mem_matchingIds_forty (st : Store) (q : PyStr) :
    pyLower q ∈ matchingIds st q ↔ pyLower q ∈ objectIds st := by
  unfold matchingIds
  rw [List.mem_filter]
  constructor
  · exact fun h => h.1
  · intro h
    refine ⟨h, ?_⟩
    exact List.isPrefixOf_iff_prefix.mpr (List.prefix_refl _)

/-! ### The resolver's outcome trichotomy -/

theorem resolveMatches_nil (name : PyStr) :
    resolveMatches name [] = .error (.fileNotFoundError (String.mk name)) := rfl

theorem resolveMatches_singleton (name u : PyStr) :
    resolveMatches name [u] = .ok u := rfl

theorem resolveMatches_many (name : PyStr) (ms : List PyStr) (h : 1 < ms.length) :
    resolveMatches name ms = .error (.valueError (ambiguousMsg name ms.length)) := by
  have hne : ms.isEmpty = false := by
    cases ms with
    | nil => simp at h
    | cons a tl => rfl
  unfold resolveMatches
  rw [hne]
  simp [h]

theorem resolveMatches_ok_mem {name : PyStr} {ms : List PyStr} {u : PyStr}
    (h : resolveMatches name ms = .ok u) : u ∈ ms := by
  unfold resolveMatches at h
  by_cases he : ms.isEmpty = true
  · rw [if_pos he] at h
    exact Except.noConfusion h
  · rw [if_neg he] at h
    by_cases hl : 1 < ms.length
    · rw [if_pos hl] at h
      exact Except.noConfusion h
    · rw [if_neg hl] at h
      simp only [Except.ok.injEq] at h
      subst h
      cases ms with
      | nil => simp at he
      | cons a tl => simp [List.headD]

theorem find_object_spec (q : PyStr) (st : Store) (hwf : WFStore st) :
    (matchingIds st q = [] →
      find_object q st = .error (.fileNotFoundError (String.mk (pyLower q)))) ∧
    (1 < (matchingIds st q).length →
      find_object q st = .error (.valueError (ambiguousMsg (pyLower q) (matchingIds st q).length))) ∧
    (∀ u, matchingIds st q = [u] → find_object q st = .ok u) := by
  by_cases h40 : (pyLower q).length = 40
  · have hunf : find_object q st =
        (if pathExists st ((pyLower q).take 2, (pyLower q).drop 2) then .ok (pyLower q)
         else .error (.fileNotFoundError (String.mk (pyLower q)))) := by
      simp only [find_object]
      rw [if_pos h40]
    refine ⟨?_, ?_, ?_⟩
    · intro hm
      have hno : pyLower q ∉ objectIds st := by
        intro hmem
        have hin : pyLower q ∈ matchingIds st q := (mem_matchingIds_forty st q).mpr hmem
        rw [hm] at hin
        simp at hin
      have hpe : ¬ (pathExists st ((pyLower q).take 2, (pyLower q).drop 2) = true) := by
        rw [pathExists_iff_mem_ids st (pyLower q) hwf]
        exact hno
      rw [hunf, if_neg hpe]
    · intro hlen
      rcases matchingIds_forty_cases st q hwf h40 with h | h <;> rw [h] at hlen <;> simp at hlen
    · intro u hm
      have hu : u = pyLower q := matchingIds_eq_lower st q hwf h40 u (by rw [hm]; simp)
      have hmem : pyLower q ∈ objectIds st := by
        refine (mem_matchingIds_forty st q).mp ?_
        rw [← hu, hm]
        simp
      have hpe : pathExists st ((pyLower q).take 2, (pyLower q).drop 2) = true :=
        (pathExists_iff_mem_ids st (pyLower q) hwf).mpr hmem
      rw [hunf, if_pos hpe, hu]
  · by_cases h2 : (pyLower q).length < 2
    · have hunf : find_object q st = resolveMatches (pyLower q) (bruteScan st (pyLower q)) := by
        simp only [find_object]
        rw [if_neg h40, if_pos h2]
      have hperm : (bruteScan st (pyLower q)).Perm (matchingIds st q) :=
        bruteScan_perm st (pyLower q)
      refine ⟨?_, ?_, ?_⟩
      · intro hm
        have hb : bruteScan st (pyLower q) = [] := (hm ▸ hperm).eq_nil
        rw [hunf, hb, resolveMatches_nil]
      · intro hlen
        have hlb : 1 < (bruteScan st (pyLower q)).length := by
          rw [hperm.length_eq]; exact hlen
        rw [hunf, resolveMatches_many _ _ hlb, hperm.length_eq]
      · intro u hm
        have hb : bruteScan st (pyLower q) = [u] := List.perm_singleton.mp (hm ▸ hperm)
        rw [hunf, hb, resolveMatches_singleton]
    · have hn2 : 2 ≤ (pyLower q).length := by omega
      have heq : bucketScan st (pyLower q) = matchingIds st q :=
        bucketScan_eq st (pyLower q) (fun e he => (hwf.1 e he).1) hn2
      by_cases hbe : bucketExists st ((pyLower q).take 2) = true
      · have hunf : find_object q st = resolveMatches (pyLower q) (bucketScan st (pyLower q)) := by
          simp only [find_object]
          rw [if_neg h40, if_neg h2, if_pos hbe]
        refine ⟨?_, ?_, ?_⟩
        · intro hm
          rw [hunf, heq, hm, resolveMatches_nil]
        · intro hlen
          rw [hunf, heq, resolveMatches_many _ _ hlen]
        · intro u hm
          rw [hunf, heq, hm, resolveMatches_singleton]
      · have hbf : bucketExists st ((pyLower q).take 2) = false := by
          revert hbe
          cases bucketExists st ((pyLower q).take 2) <;> simp
        have hm0 : matchingIds st q = [] := by
          rw [← heq]
          exact bucketScan_nil_of_no_bucket st (pyLower q) hbf
        have hunf : find_object q st = .error (.fileNotFoundError (String.mk (pyLower q))) := by
          simp only [find_object]
          rw [if_neg h40, if_neg h2, if_neg hbe]
        refine ⟨fun _ => hunf, ?_, ?_⟩
        · intro hlen
          rw [hm0] at hlen
          simp at hlen
        · intro u hm
          rw [hm0] at hm
          simp at hm

theorem find_object_ok_mem {q : PyStr} {st : Store} {full : PyStr} (hwf : WFStore st)
    (h : find_object q st = .ok full) : full ∈ objectIds st := by
  by_cases h40 : (pyLower q).length = 40
  · have hunf : find_object q st =
        (if pathExists st ((pyLower q).take 2, (pyLower q).drop 2) then .ok (pyLower q)
         else .error (.fileNotFoundError (String.mk (pyLower q)))) := by
      simp only [find_object]
      rw [if_pos h40]
    rw [hunf] at h
    by_cases hpe : pathExists st ((pyLower q).take 2, (pyLower q).drop 2) = true
    · rw [if_pos hpe] at h
      simp only [Except.ok.injEq] at h
      rw [← h]
      exact (pathExists_iff_mem_ids st (pyLower q) hwf).mp hpe
    · rw [if_neg hpe] at h
      exact Except.noConfusion h
  · by_cases h2 : (pyLower q).length < 2
    · have hunf : find_object q st = resolveMatches (pyLower q) (bruteScan st (pyLower q)) := by
        simp only [find_object]
        rw [if_neg h40, if_pos h2]
      rw [hunf] at h
      have hmem := resolveMatches_ok_mem h
      have hin : full ∈ matchingIds st q := (bruteScan_perm st (pyLower q)).mem_iff.mp hmem
      exact (List.mem_filter.mp hin).1
    · by_cases hbe : bucketExists st ((pyLower q).take 2) = true
      · have hunf : find_object q st = resolveMatches (pyLower q) (bucketScan st (pyLower q)) := by
          simp only [find_object]
          rw [if_neg h40, if_neg h2, if_pos hbe]
        rw [hunf] at h
        have hmem := resolveMatches_ok_mem h
        rw [bucketScan_eq st (pyLower q) (fun e he => (hwf.1 e he).1) (by omega)] at hmem
        exact (List.mem_filter.mp hmem).1
      · have hunf : find_object q st = .error (.fileNotFoundError (String.mk (pyLower q))) := by
          simp only [find_object]
          rw [if_neg h40, if_neg h2, if_neg hbe]
        rw [hunf] at h
        exact Except.noConfusion h

theorem ids_self_resolves {st : Store} (hwf : WFStore st) {full : PyStr}
    (h : full ∈ objectIds st) : find_object full st = .ok full := by
  have hlen : full.length = 40 := objectIds_length st hwf full h
  have hhex : ∀ c ∈ full, c ∈ hexChars := by
    rcases List.mem_map.mp h with ⟨e, he, rfl⟩
    intro c hc
    rcases List.mem_append.mp hc with hc | hc
    · exact (hwf.1 e he).2.2.1 c hc
    · exact (hwf.1 e he).2.2.2 c hc
  have hlow : pyLower full = full := pyLower_of_hex hhex
  have hpe : pathExists st (full.take 2, full.drop 2) = true :=
    (pathExists_iff_mem_ids st full hwf).mpr h
  simp only [find_object, hlow]
  rw [if_pos hlen, if_pos hpe]

/-- C4: resolve fails with FileNotFoundError (the code's ObjectNotFound)
when no stored identifier matches the query, fails with the ValueError
carrying the match count (AmbiguousPrefix) when more than one matches, and
returns the unique full identifier when exactly one matches — ambiguity is
an error, never silently resolved. -/
theorem find_object_resolution_trichotomy (q : PyStr) (st : Store) (hwf : WFStore st) :
    (matchingIds st q = [] →
      find_object q st = .error (.fileNotFoundError (String.mk (pyLower q)))) ∧
    (1 < (matchingIds st q).length →
      find_object q st = .error (.valueError (ambiguousMsg (pyLower q) (matchingIds st q).length))) ∧
    (∀ u, matchingIds st q = [u] → find_object q st = .ok u) :=
  find_object_spec q st hwf

/-- Witness for C4: on the demo store the query "aa0" matches exactly one
stored identifier and resolves to it. -/
theorem find_object_resolution_trichotomy_witness :
    find_object "aa0".data demoStore = .ok ("aa".data ++ demoId1) :=
  (find_object_resolution_trichotomy "aa0".data demoStore (by decide)).2.2
    ("aa".data ++ demoId1) (by decide)

/-- C5: for queries of 2 to 39 characters the resolver scans only the
bucket named by the first two characters of the lowercased query; that
bucket-restricted scan collects exactly the stored identifiers matching
the query; a missing bucket directory fails with FileNotFoundError. -/
theorem find_object_bucket_restriction (q : PyStr) (st : Store) (hwf : WFStore st)
    (h2 : 2 ≤ q.length) (h39 : q.length ≤ 39) :
    find_object q st =
      (if bucketExists st ((pyLower q).take 2) then
        resolveMatches (pyLower q) (bucketScan st (pyLower q))
       else .error (.fileNotFoundError (String.mk (pyLower q)))) ∧
    bucketScan st (pyLower q) = matchingIds st q ∧
    (bucketExists st ((pyLower q).take 2) = false →
      find_object q st = .error (.fileNotFoundError (String.mk (pyLower q)))) := by
  have hlq : (pyLower q).length = q.length := List.length_map _ _
  have h40 : ¬ (pyLower q).length = 40 := by omega
  have hn2 : ¬ (pyLower q).length < 2 := by omega
  have hunf : find_object q st =
      (if bucketExists st ((pyLower q).take 2) then
        resolveMatches (pyLower q) (bucketScan st (pyLower q))
       else .error (.fileNotFoundError (String.mk (pyLower q)))) := by
    simp only [find_object]
    rw [if_neg h40, if_neg hn2]
  refine ⟨hunf, bucketScan_eq st (pyLower q) (fun e he => (hwf.1 e he).1) (by omega), ?_⟩
  intro hbf
  rw [hunf, if_neg (by rw [hbf]; simp)]

/-- Witness for C5: the query "ab" names a bucket that does not exist in
the demo store, and the resolver fails with FileNotFoundError. -/
theorem find_object_bucket_restriction_witness :
    find_object "ab".data demoStore = .error (.fileNotFoundError "ab") := by
  have h := (find_object_bucket_restriction "ab".data demoStore (by decide)
    (by decide) (by decide)).2.2 (by decide)
  exact h.trans (by decide)

/-- C9: read accepts abbreviated prefixes: it resolves its argument through
the prefix resolver first, so a read through any query that resolves to a
full identifier agrees with the read of that full identifier (a uniquely
matching short prefix succeeds), and a prefix matching more than one
stored identifier makes read fail with the AmbiguousPrefix ValueError. -/
theorem read_object_prefix_resolution (p : PyStr) (st : Store) (hwf : WFStore st) :
    (∀ full r, find_object p st = .ok full → read_object full st = .ok r →
      read_object p st = .ok r) ∧
    (1 < (matchingIds st p).length →
      read_object p st = .error (.valueError (ambiguousMsg (pyLower p) (matchingIds st p).length))) := by
  constructor
  · intro full r hfind hread
    have hmem := find_object_ok_mem hwf hfind
    have hself := ids_self_resolves hwf hmem
    simp only [read_object, hself] at hread
    simp only [read_object, hfind]
    exact hread
  · intro hlen
    have herr := (find_object_spec p st hwf).2.1 hlen
    simp only [read_object, herr]

/-- Witness for C9: the unique prefix "aa0" reads back the stored blob,
and the two-character prefix "aa" matches two identifiers, so read fails
with the ambiguity ValueError carrying the match count. -/
theorem read_object_prefix_resolution_witness :
    read_object "aa0".data demoStore = .ok ("blob".data, [120]) ∧
    read_object "aa".data demoStore
      = .error (.valueError "Ambiguous prefix: aa matches 2 objects") := by
  constructor
  · exact (read_object_prefix_resolution "aa0".data demoStore (by decide)).1
      ("aa".data ++ demoId1) ("blob".data, [120]) (by decide) (by decide)
  · exact ((read_object_prefix_resolution "aa".data demoStore (by decide)).2
      (by decide)).trans (by decide)
